import Mathlib

/-!
Shallow embedding of the block-template assembly engine of src/miner.cpp
(Zcash-style miner): coinbase construction with founders-reward / funding
stream outputs, the mempool transaction-selection loop of CreateNewBlock,
the header block-commitments branch, scriptSig construction, and
ExtractMinerAddress.  Machine integers (CAmount = int64_t, sizes) are
modelled as Int / Nat; fallible operations return Except / Option.
-/

namespace ZcashMiner

/-! ## Script primitives

Modelled from the spec: script.h / CScript / CScriptNum are not part of the
provided sources; the encodings below follow the description in the spec of the
coinbase scriptSig (height as a CScriptNum push, then the extra nonce as a
CScriptNum push, then COINBASE_FLAGS) using the standard Bitcoin script
serialization rules. -/

def OP_0 : Nat := 0x00
def OP_1NEGATE : Nat := 0x4f
def OP_DUP : Nat := 0x76
def OP_HASH160 : Nat := 0xa9
def OP_EQUALVERIFY : Nat := 0x88
def OP_CHECKSIG : Nat := 0xac

/-- Modelled from the spec: little-endian base-256 digits of a natural
number, least significant byte first, with no trailing zero bytes
(the byte vector of a nonnegative CScriptNum before sign adjustment). -/
def scriptNumBytesOfNat (n : Nat) : List Nat :=
  if n = 0 then []
  else n % 256 :: scriptNumBytesOfNat (n / 256)
decreasing_by exact Nat.div_lt_self (Nat.pos_of_ne_zero (by assumption)) (by omega)

/-- Modelled from the spec: CScriptNum::serialize.  A value is encoded as
minimal little-endian bytes of its absolute value; if the most significant
byte would have the 0x80 bit set, an extra byte is appended holding the
sign, otherwise the sign bit is folded into the last byte (negative case).
The coinbase only ever serializes nonnegative values. -/
def serializeScriptNum (n : Int) : List Nat :=
  if n = 0 then []
  else
    let absBytes := scriptNumBytesOfNat n.natAbs
    match absBytes.getLast? with
    | none => []
    | some msb =>
      if msb ≥ 0x80 then
        absBytes ++ [if n < 0 then 0x80 else 0x00]
      else if n < 0 then
        absBytes.dropLast ++ [msb + 0x80]
      else
        absBytes

/-- Modelled from the spec: CScript data push of a byte vector, prefixing
the payload with a direct-length opcode (payloads under OP_PUSHDATA1 = 76),
or an OP_PUSHDATA1/2/4 opcode plus a little-endian length. -/
def pushData (bs : List Nat) : List Nat :=
  if bs.length < 76 then
    bs.length :: bs
  else if bs.length ≤ 0xff then
    76 :: bs.length :: bs
  else if bs.length ≤ 0xffff then
    77 :: bs.length % 256 :: bs.length / 256 :: bs
  else
    78 :: bs.length % 256 :: bs.length / 256 % 256 :: bs.length / 256 / 256 % 256 ::
      bs.length / 256 / 256 / 256 % 256 :: bs

/-- Modelled from the spec: CScript operator pushing an int64 value; minus
one and one through sixteen become single opcodes, zero becomes OP_0, and
anything else becomes a CScriptNum data push. -/
def scriptPushInt64 (n : Int) : List Nat :=
  if n = -1 ∨ (1 ≤ n ∧ n ≤ 16) then
    [(n + 0x50).toNat]
  else if n = 0 then
    [OP_0]
  else
    pushData (serializeScriptNum n)

/-- Modelled from the spec: COINBASE_FLAGS (declared outside the provided
sources) is an empty script by default in this codebase. -/
def coinbaseFlags : List Nat := []

/-! ## Coinbase builder data model (miner.cpp lines 125-368) -/

/-- Transparent transaction input; only the fields the miner touches. -/
structure CTxIn where
  prevoutNull : Bool
  scriptSig : List Nat
deriving DecidableEq, Repr

/-- Mutable transaction under construction.  A Sapling output description
is represented by the value of the note it was built from; the Orchard
bundle by the list of its action output values. -/
structure CMutableTransaction where
  vin : List CTxIn
  vout : List (Int × List Nat)
  vShieldedOutput : List Int
  valueBalanceSapling : Int
  orchardBundle : Option (List Int)
  nExpiryHeight : Int
deriving DecidableEq, Repr

/-- Value balance of the Orchard bundle of a transaction: spends minus
outputs, so a coinbase bundle containing only outputs has the negated
output total; an absent bundle reports zero. -/
def orchardBundleValueBalance : Option (List Int) → Int
  | none => 0
  | some outs => -(outs.sum)

/-- Recipient of a funding stream element: a transparent script or a
Sapling payment address.  The Sapling case carries the success of its
OutputDescriptionInfo.Build call (an external proving operation). -/
inductive FundingRecipient where
  | script (s : List Nat)
  | sapling (buildOk : Bool)
deriving DecidableEq, Repr

/-- Funding stream element: recipient plus amount. -/
structure FundingStreamElement where
  recipient : FundingRecipient
  amount : Int
deriving DecidableEq, Repr

/-- Consensus parameters consumed by the coinbase builder, abstracted over
height (chainparams / consensus code is outside the provided sources). -/
structure ChainParams where
  canopyActive : Int → Bool
  nu5Active : Int → Bool
  blockSubsidy : Int → Int
  fundingStreams : Int → Int → List FundingStreamElement
  lastFoundersRewardHeight : Int → Int
  foundersScript : Int → List Nat

/-- Results of the external proving / signing operations the builder
invokes, one flag per fallible call site. -/
structure ProvingEnv where
  minerOutputBuildOk : Bool
  orchardBuildOk : Bool
  sigHashOk : Bool
  orchardProveOk : Bool
  bindingSigOk : Bool
deriving DecidableEq, Repr

/-- Builder state: the transaction being assembled plus the number of
librustzcash_sapling_proving_ctx_free calls made so far. -/
structure BuilderState where
  mtx : CMutableTransaction
  freeCount : Nat
deriving DecidableEq, Repr

/-- State reached by a builder computation whether it returned normally or
threw (miner.cpp frees the proving context on both kinds of exit). -/
def exceptState : Except BuilderState BuilderState → BuilderState
  | .ok s => s
  | .error s => s

/-- AddFundingStreamValueToTx (miner.cpp lines 125-158): a Sapling
recipient gets an output description and decrements valueBalanceSapling,
returning failure if the proof build fails; a script recipient gets a
transparent output. -/
def addFundingStreamValueToTx (mtx : CMutableTransaction) (amount : Int) :
    FundingRecipient → Option CMutableTransaction
  | .sapling ok =>
    if ok then
      some { mtx with
        vShieldedOutput := mtx.vShieldedOutput ++ [amount],
        valueBalanceSapling := mtx.valueBalanceSapling - amount }
    else
      none
  | .script s => some { mtx with vout := mtx.vout ++ [(amount, s)] }

/-- Loop body of SetFoundersRewardAndGetMinerValue over the active funding
stream elements: the amount of each element is subtracted from the miner reward
and its output added to the transaction; a failed add aborts. -/
def addFundingStreams (minerReward : Int) (mtx : CMutableTransaction) :
    List FundingStreamElement → Option (Int × CMutableTransaction)
  | [] => some (minerReward, mtx)
  | e :: rest =>
    match addFundingStreamValueToTx mtx e.amount e.recipient with
    | some mtx' => addFundingStreams (minerReward - e.amount) mtx' rest
    | none => none

/-- SetFoundersRewardAndGetMinerValue (miner.cpp lines 184-217): starts
from the block subsidy; after Canopy it pays the funding streams (freeing
the proving context and throwing if one fails), before Canopy and up to
the last founders-reward height it pays one fifth of the subsidy to the
founders script; returns the remaining miner reward plus fees. -/
def setFoundersRewardAndGetMinerValue (p : ChainParams) (nHeight nFees : Int)
    (s : BuilderState) : Except BuilderState (Int × BuilderState) :=
  let blockSubsidy := p.blockSubsidy nHeight
  let minerReward := blockSubsidy
  if nHeight > 0 then
    if p.canopyActive nHeight then
      match addFundingStreams minerReward s.mtx (p.fundingStreams nHeight blockSubsidy) with
      | some (mr, mtx') => .ok (mr + nFees, { s with mtx := mtx' })
      | none => .error { s with freeCount := s.freeCount + 1 }
    else if nHeight ≤ p.lastFoundersRewardHeight nHeight then
      let vFoundersReward := Int.tdiv minerReward 5
      .ok (minerReward - vFoundersReward + nFees,
        { s with mtx :=
          { s.mtx with vout := s.mtx.vout ++ [(vFoundersReward, p.foundersScript nHeight)] } })
    else
      .ok (minerReward + nFees, s)
  else
    .ok (minerReward + nFees, s)

/-- ComputeBindingSig (miner.cpp lines 219-259): computes the signature
hash (freeing the context and rethrowing on a logic error), proves and
signs a pending Orchard bundle and installs it (freeing and throwing on
failure), then computes the Sapling binding signature (freeing and
throwing on failure). -/
def computeBindingSig (env : ProvingEnv) (orchardOuts : Option (List Int))
    (s : BuilderState) : Except BuilderState BuilderState :=
  if ¬ env.sigHashOk then
    .error { s with freeCount := s.freeCount + 1 }
  else
    match orchardOuts with
    | some outs =>
      if env.orchardProveOk then
        let s1 : BuilderState := { s with mtx := { s.mtx with orchardBundle := some outs } }
        if env.bindingSigOk then .ok s1
        else .error { s1 with freeCount := s1.freeCount + 1 }
      else
        .error { s with freeCount := s.freeCount + 1 }
    | none =>
      if env.bindingSigOk then .ok s
      else .error { s with freeCount := s.freeCount + 1 }

/-- Orchard variant of AddOutputsToCoinbaseTxAndSign::operator()
(miner.cpp lines 262-298): initializes the proving context, adds the miner
output and a zero-value dummy output to an Orchard builder, builds the
bundle (freeing and throwing on failure), computes the binding signature,
and frees the context. -/
def runOrchardCoinbase (p : ChainParams) (nHeight nFees : Int) (env : ProvingEnv)
    (s0 : BuilderState) : Except BuilderState BuilderState :=
  match setFoundersRewardAndGetMinerValue p nHeight nFees s0 with
  | .error e => .error e
  | .ok (minerReward, s1) =>
    let builderOuts : List Int := [minerReward, 0]
    if ¬ env.orchardBuildOk then
      .error { s1 with freeCount := s1.freeCount + 1 }
    else
      match computeBindingSig env (some builderOuts) s1 with
      | .error e => .error e
      | .ok s2 => .ok { s2 with freeCount := s2.freeCount + 1 }

/-- Sapling variant of AddOutputsToCoinbaseTxAndSign::operator()
(miner.cpp lines 301-322): initializes the proving context, decrements
valueBalanceSapling by the miner reward, builds the output description for the miner
description (freeing and throwing on failure), appends it, computes the
binding signature, and frees the context. -/
def runSaplingCoinbase (p : ChainParams) (nHeight nFees : Int) (env : ProvingEnv)
    (s0 : BuilderState) : Except BuilderState BuilderState :=
  match setFoundersRewardAndGetMinerValue p nHeight nFees s0 with
  | .error e => .error e
  | .ok (minerReward, s1) =>
    let s2 : BuilderState := { s1 with mtx :=
      { s1.mtx with valueBalanceSapling := s1.mtx.valueBalanceSapling - minerReward } }
    if ¬ env.minerOutputBuildOk then
      .error { s2 with freeCount := s2.freeCount + 1 }
    else
      let s3 : BuilderState := { s2 with mtx :=
        { s2.mtx with vShieldedOutput := s2.mtx.vShieldedOutput ++ [minerReward] } }
      match computeBindingSig env none s3 with
      | .error e => .error e
      | .ok s4 => .ok { s4 with freeCount := s4.freeCount + 1 }

/-- List update used to model mtx.vout resize(1): keep the first element
(or a default null CTxOut, whose value is minus one) and drop the rest. -/
def resizeVoutToOne : List (Int × List Nat) → List (Int × List Nat)
  | [] => [(-1, [])]
  | x :: _ => [x]

/-- Transparent variant of AddOutputsToCoinbaseTxAndSign::operator()
(miner.cpp lines 325-342): initializes the proving context, reserves
vout index zero for the miner, adds founders / funding outputs, fills in
the miner output, computes the binding signature only when a shielded
output exists, and frees the context. -/
def runTransparentCoinbase (p : ChainParams) (nHeight nFees : Int) (env : ProvingEnv)
    (coinbaseScript : List Nat) (s0 : BuilderState) : Except BuilderState BuilderState :=
  let sR : BuilderState := { s0 with mtx := { s0.mtx with vout := resizeVoutToOne s0.mtx.vout } }
  match setFoundersRewardAndGetMinerValue p nHeight nFees sR with
  | .error e => .error e
  | .ok (value, s1) =>
    let s2 : BuilderState := { s1 with mtx :=
      { s1.mtx with vout :=
        match s1.mtx.vout with
        | [] => []
        | _ :: rest => (value, coinbaseScript) :: rest } }
    if s2.mtx.vShieldedOutput.length > 0 then
      match computeBindingSig env none s2 with
      | .error e => .error e
      | .ok s3 => .ok { s3 with freeCount := s3.freeCount + 1 }
    else
      .ok { s2 with freeCount := s2.freeCount + 1 }

/-- Miner reward recipient: exactly a transparent reserve script, a
Sapling payment address, or an Orchard raw address (miner.h variant). The
shielded addresses are abstracted by an identifier. -/
inductive MinerAddress where
  | transparent (reserveScript : List Nat)
  | saplingAddr (a : Nat)
  | orchardAddr (a : Nat)
deriving DecidableEq, Repr

/-- Dispatch of std::visit(AddOutputsToCoinbaseTxAndSign(...), minerAddress)
on the miner address variant. -/
def runCoinbaseVariant (p : ChainParams) (nHeight nFees : Int) (env : ProvingEnv) :
    MinerAddress → BuilderState → Except BuilderState BuilderState
  | .transparent script => runTransparentCoinbase p nHeight nFees env script
  | .saplingAddr _ => runSaplingCoinbase p nHeight nFees env
  | .orchardAddr _ => runOrchardCoinbase p nHeight nFees env

/-- Fresh contextual transaction as CreateCoinbaseTransaction sees it
before adding outputs: no inputs or outputs yet, zero value balances, no
Orchard bundle. -/
def emptyMutableTx : CMutableTransaction :=
  { vin := [], vout := [], vShieldedOutput := [], valueBalanceSapling := 0,
    orchardBundle := none, nExpiryHeight := 0 }

/-- CreateCoinbaseTransaction (miner.cpp lines 345-368): creates a fresh
transaction, gives it a single input with a null prevout, sets
nExpiryHeight to the height from NU5 activation onward and zero before,
runs the address-dispatched output builder (which may throw), and finally
sets the scriptSig of the input to a push of the height followed by OP_0. -/
def createCoinbaseTransaction (p : ChainParams) (nFees : Int)
    (minerAddress : MinerAddress) (nHeight : Int) (env : ProvingEnv) :
    Except BuilderState CMutableTransaction :=
  let mtx0 : CMutableTransaction := { emptyMutableTx with
    vin := [{ prevoutNull := true, scriptSig := [] }],
    nExpiryHeight := if p.nu5Active nHeight then nHeight else 0 }
  match runCoinbaseVariant p nHeight nFees env minerAddress { mtx := mtx0, freeCount := 0 } with
  | .error e => .error e
  | .ok s =>
    .ok { s.mtx with vin :=
      match s.mtx.vin with
      | [] => []
      | i :: rest => { i with scriptSig := scriptPushInt64 nHeight ++ [OP_0] } :: rest }

/-- Rewritten coinbase scriptSig produced by IncrementExtraNonce
(miner.cpp line 866): a push of the height, a CScriptNum data push of the
extra nonce, then COINBASE_FLAGS. -/
def incrementExtraNonceScriptSig (nHeight : Int) (nExtraNonce : Int) : List Nat :=
  scriptPushInt64 nHeight ++ pushData (serializeScriptNum nExtraNonce) ++ coinbaseFlags

/-! ## Transaction selection loop of CreateNewBlock (miner.cpp lines 512-698)

The priority heap is abstracted by the sequence of transactions popped
from it; each popped transaction carries the quantities the loop reads
(sizes, sigop counts, deltas applied by mempool.ApplyDeltas, fee data,
the results of the view-dependent checks, and its shielded value
movements). -/

/-- Candidate transaction as seen by one iteration of the selection loop. -/
structure MPTx where
  txSize : Nat
  legacySigOps : Nat
  p2shSigOps : Nat
  priorityDelta : Int
  feeDelta : Int
  feeRate : Int
  feePaid : Int
  allowFree : Bool
  haveInputs : Bool
  contextualOk : Bool
  viewFee : Int
  valueBalanceSapling : Int
  orchardValueBalance : Int
  joinSplits : List (Int × Int)
deriving DecidableEq, Repr

/-- Fixed inputs of the selection loop: clamped size knobs, the sigop
ceiling, relay fee thresholds, and whether ZIP209 pool-balance monitoring
is on (ZIP209 enabled and all three tip totals initialized). -/
structure SelConfig where
  maxSize : Nat
  prioritySize : Nat
  minSize : Nat
  maxSigOps : Nat
  minRelayFee : Int
  defaultFee : Int
  monitoring : Bool
deriving DecidableEq, Repr

/-- Running state of the selection loop. -/
structure SelState where
  blockSize : Nat
  blockSigOps : Nat
  blockTx : Nat
  sortedByFee : Bool
  fees : Int
  sproutValue : Int
  saplingValue : Int
  orchardValue : Int
  txs : List MPTx
deriving DecidableEq, Repr

/-- Initial counters of the loop (miner.cpp lines 513-516): 1000 bytes
reserved for the coinbase, 100 sigops, no transactions. -/
def selInit (sortedByFee : Bool) (sprout sapling orchard : Int) : SelState :=
  { blockSize := 1000, blockSigOps := 100, blockTx := 0, sortedByFee := sortedByFee,
    fees := 0, sproutValue := sprout, saplingValue := sapling, orchardValue := orchard,
    txs := [] }

/-- Free-transaction gate condition (miner.cpp lines 580-585): fires only
under the fee comparator, when the admin deltas are nonpositive, the fee
rate is below the relay minimum, the fee paid is below DEFAULT_FEE, and
the block already has the minimum size. -/
def freeTxGateSkips (cfg : SelConfig) (s : SelState) (tx : MPTx) : Bool :=
  s.sortedByFee ∧ tx.priorityDelta ≤ 0 ∧ tx.feeDelta ≤ 0 ∧
    tx.feeRate < cfg.minRelayFee ∧ tx.feePaid < cfg.defaultFee ∧
    s.blockSize + tx.txSize ≥ cfg.minSize

/-- Hypothetical Sprout pool balance after adding the transaction
(miner.cpp lines 642-645). -/
def sproutDummy (s : SelState) (tx : MPTx) : Int :=
  s.sproutValue + (tx.joinSplits.map (fun js => js.1 - js.2)).sum

/-- Hypothetical Sapling pool balance after adding the transaction
(miner.cpp line 639). -/
def saplingDummy (s : SelState) (tx : MPTx) : Int :=
  s.saplingValue + -tx.valueBalanceSapling

/-- Hypothetical Orchard pool balance after adding the transaction
(miner.cpp line 640). -/
def orchardDummy (s : SelState) (tx : MPTx) : Int :=
  s.orchardValue + -tx.orchardValueBalance

/-- One iteration of the selection loop body for a popped transaction
(miner.cpp lines 550-698), with each gate in source order: size, legacy
sigops, free-transaction gate, one-way switch to the fee comparator,
input availability, combined legacy + P2SH sigops, contextual input
check, and the ZIP209 turnstile; an accepted transaction updates the
counters, the fee total, and the running pool balances. -/
def selStep (cfg : SelConfig) (s : SelState) (tx : MPTx) : SelState :=
  if s.blockSize + tx.txSize ≥ cfg.maxSize then s
  else if s.blockSigOps + tx.legacySigOps ≥ cfg.maxSigOps then s
  else if freeTxGateSkips cfg s tx then s
  else
    let s := if ¬ s.sortedByFee ∧
        (s.blockSize + tx.txSize ≥ cfg.prioritySize ∨ ¬ tx.allowFree) then
      { s with sortedByFee := true }
    else s
    if ¬ tx.haveInputs then s
    else if s.blockSigOps + tx.legacySigOps + tx.p2shSigOps ≥ cfg.maxSigOps then s
    else if ¬ tx.contextualOk then s
    else if cfg.monitoring ∧
        (sproutDummy s tx < 0 ∨ saplingDummy s tx < 0 ∨ orchardDummy s tx < 0) then s
    else
      { s with
        blockSize := s.blockSize + tx.txSize,
        blockSigOps := s.blockSigOps + tx.legacySigOps + tx.p2shSigOps,
        blockTx := s.blockTx + 1,
        fees := s.fees + tx.viewFee,
        sproutValue := if cfg.monitoring then sproutDummy s tx else s.sproutValue,
        saplingValue := if cfg.monitoring then saplingDummy s tx else s.saplingValue,
        orchardValue := if cfg.monitoring then orchardDummy s tx else s.orchardValue,
        txs := s.txs ++ [tx] }

/-- Selection loop over the sequence of popped transactions. -/
def selLoop (cfg : SelConfig) (s : SelState) (txs : List MPTx) : SelState :=
  txs.foldl (selStep cfg) s

/-! ## Header block commitments (miner.cpp lines 712-765) -/

/-- Sapling commitment tree contents after the update loop of miner.cpp
lines 713-717: the tree at the tip followed by every output commitment of
every template transaction, in transaction order then output order. -/
def saplingTreeAfterAppends (initialTree : List Nat) (txCmus : List (List Nat)) : List Nat :=
  initialTree ++ txCmus.flatten

/-- Header commitment fields chosen by the upgrade ladder of miner.cpp
lines 730-765, returning (hashChainHistoryRoot, hashAuthDataRoot,
hashBlockCommitments).  The chain history root, auth-data root, and the
derivation / tree-root functions are abstract inputs (their
implementations live outside the provided sources); a null hash is
modelled as zero. -/
def computeBlockCommitments (derive : Nat → Nat → Nat) (treeRoot : List Nat → Nat)
    (nu5Active heartwoodActivation heartwoodActive : Bool)
    (historyRoot authDataRoot : Nat) (initialTree : List Nat) (txCmus : List (List Nat)) :
    Nat × Nat × Nat :=
  if nu5Active then
    (historyRoot, authDataRoot, derive historyRoot authDataRoot)
  else if heartwoodActivation then
    (0, 0, 0)
  else if heartwoodActive then
    (historyRoot, 0, historyRoot)
  else
    (0, 0, treeRoot (saplingTreeAfterAppends initialTree txCmus))

/-! ## ExtractMinerAddress (miner.cpp lines 796-824) -/

/-- Pay-to-public-key-hash reserve script built for a transparent key id
(miner.cpp line 798). -/
def p2pkhScript (keyBytes : List Nat) : List Nat :=
  OP_DUP :: OP_HASH160 :: pushData keyBytes ++ [OP_EQUALVERIFY, OP_CHECKSIG]

/-- Receiver inside a Unified Address, as returned by
GetPreferredRecipientAddress: Orchard, Sapling, transparent key id, or
any other receiver kind. -/
inductive UAReceiver where
  | orchard (a : Nat)
  | sapling (a : Nat)
  | keyID (keyBytes : List Nat)
  | otherReceiver
deriving DecidableEq, Repr

/-- Decoded payment address variants dispatched by ExtractMinerAddress.
A Unified Address carries its preferred recipient as a function of the
height. -/
inductive PaymentAddress where
  | keyID (keyBytes : List Nat)
  | scriptID (s : Nat)
  | sprout (a : Nat)
  | sapling (a : Nat)
  | unified (preferred : Int → Option UAReceiver)

/-- ExtractMinerAddress visitor (miner.cpp lines 796-824): key ids become
a P2PKH reserve script, Sapling addresses pass through, script ids and
Sprout addresses yield nothing, and a Unified Address is resolved through
its preferred recipient at the given height. -/
def extractMinerAddress (height : Int) : PaymentAddress → Option MinerAddress
  | .keyID k => some (.transparent (p2pkhScript k))
  | .scriptID _ => none
  | .sprout _ => none
  | .sapling a => some (.saplingAddr a)
  | .unified preferred =>
    match preferred height with
    | some r =>
      match r with
      | .orchard a => some (.orchardAddr a)
      | .sapling a => some (.saplingAddr a)
      | .keyID k => some (.transparent (p2pkhScript k))
      | .otherReceiver => none
    | none => none

/-! ## Derived quantities used in the statements -/

/-- Total value of the transparent outputs. -/
def voutSum (mtx : CMutableTransaction) : Int :=
  (mtx.vout.map Prod.fst).sum

/-- Net value a transaction moves out of the transparent pool into the
shielded pools: the negated Sapling and Orchard value balances.  For a
coinbase both balances are nonpositive, so this is the shielded value
flowing out of the transparent side. -/
def shieldedOutflow (mtx : CMutableTransaction) : Int :=
  -(mtx.valueBalanceSapling + orchardBundleValueBalance mtx.orchardBundle)

/-- Statement of the free-transaction gate exactly as the claim words it,
reading the phrase about the transaction having no admin priority or fee
deltas as both deltas being zero. -/
def freeTxGateAsClaimed (cfg : SelConfig) (s : SelState) (tx : MPTx) : Prop :=
  s.sortedByFee = true ∧ tx.priorityDelta = 0 ∧ tx.feeDelta = 0 ∧
    tx.feeRate < cfg.minRelayFee ∧ tx.feePaid < cfg.defaultFee ∧
    cfg.minSize ≤ s.blockSize + tx.txSize

/-- Total founders-reward / funding-stream deduction taken from the block
subsidy at a height: the funding stream total after Canopy, one fifth of
the subsidy during the founders-reward era, nothing otherwise. -/
def totalDeductions (p : ChainParams) (nHeight : Int) : Int :=
  if nHeight > 0 then
    if p.canopyActive nHeight then
      ((p.fundingStreams nHeight (p.blockSubsidy nHeight)).map (fun e => e.amount)).sum
    else if nHeight ≤ p.lastFoundersRewardHeight nHeight then
      Int.tdiv (p.blockSubsidy nHeight) 5
    else 0
  else 0

/-! ## Coinbase builder lemmas -/

theorem addFundingStreams_ok_spec (l : List FundingStreamElement) :
    ∀ mr mtx mr' mtx', addFundingStreams mr mtx l = some (mr', mtx') →
      mr' = mr - (l.map (fun e => e.amount)).sum ∧
      mtx'.vin = mtx.vin ∧
      mtx'.nExpiryHeight = mtx.nExpiryHeight ∧
      mtx'.orchardBundle = mtx.orchardBundle ∧
      (∃ ext, mtx'.vout = mtx.vout ++ ext) ∧
      voutSum mtx' - mtx'.valueBalanceSapling
        = voutSum mtx - mtx.valueBalanceSapling + (l.map (fun e => e.amount)).sum := by
  induction l with
  | nil =>
    intro mr mtx mr' mtx' h
    simp only [addFundingStreams] at h
    obtain ⟨h1, h2⟩ : mr' = mr ∧ mtx' = mtx := by
      constructor <;> [exact (Prod.mk.injEq _ _ _ _ ▸ (Option.some.injEq _ _ ▸ h)).1.symm;
        exact (Prod.mk.injEq _ _ _ _ ▸ (Option.some.injEq _ _ ▸ h)).2.symm]
    subst h1; subst h2
    simp
  | cons e rest ih =>
    intro mr mtx mr' mtx' h
    simp only [addFundingStreams] at h
    cases hrec : e.recipient with
    | script s =>
      rw [hrec] at h
      simp only [addFundingStreamValueToTx] at h
      obtain ⟨hmr, hvin, hexp, horch, ⟨ext, hvout⟩, hcons⟩ := ih _ _ _ _ h
      refine ⟨by rw [hmr]; simp; ring, by simpa using hvin, by simpa using hexp,
        by simpa using horch, ⟨(e.amount, s) :: ext, by simpa using hvout⟩, ?_⟩
      rw [hcons]
      simp [voutSum]
      ring
    | sapling ok =>
      rw [hrec] at h
      simp only [addFundingStreamValueToTx] at h
      by_cases hok : ok = true
      · subst hok
        simp only [if_pos rfl] at h
        obtain ⟨hmr, hvin, hexp, horch, ⟨ext, hvout⟩, hcons⟩ := ih _ _ _ _ h
        refine ⟨by rw [hmr]; simp; ring, by simpa using hvin, by simpa using hexp,
          by simpa using horch, ⟨ext, by simpa using hvout⟩, ?_⟩
        rw [hcons]
        simp [voutSum]
        ring
      · simp only [hok] at h
        simp at h

theorem setFounders_ok_spec (p : ChainParams) (nHeight nFees : Int) (s : BuilderState)
    (v : Int) (s' : BuilderState)
    (h : setFoundersRewardAndGetMinerValue p nHeight nFees s = .ok (v, s')) :
    s'.freeCount = s.freeCount ∧
    v = p.blockSubsidy nHeight - totalDeductions p nHeight + nFees ∧
    s'.mtx.vin = s.mtx.vin ∧
    s'.mtx.nExpiryHeight = s.mtx.nExpiryHeight ∧
    s'.mtx.orchardBundle = s.mtx.orchardBundle ∧
    (∃ ext, s'.mtx.vout = s.mtx.vout ++ ext) ∧
    voutSum s'.mtx - s'.mtx.valueBalanceSapling
      = voutSum s.mtx - s.mtx.valueBalanceSapling + totalDeductions p nHeight := by
  simp only [setFoundersRewardAndGetMinerValue] at h
  split at h
  · -- nHeight > 0
    rename_i hpos
    split at h
    · -- canopy active
      rename_i hcan
      split at h
      · -- addFundingStreams returned some
        rename_i mr mtx' hadd
        injection h with h
        injection h with hv hs
        subst hs
        obtain ⟨hmr, hvin, hexp, horch, hext, hcons⟩ :=
          addFundingStreams_ok_spec _ _ _ _ _ hadd
        have hded : totalDeductions p nHeight
            = ((p.fundingStreams nHeight (p.blockSubsidy nHeight)).map
                (fun e => e.amount)).sum := by
          simp [totalDeductions, hpos, hcan]
        exact ⟨rfl, by omega, hvin, hexp, horch, hext, by rw [hcons, hded]⟩
      · exact absurd h (by simp)
    · -- canopy inactive
      rename_i hcan
      split at h
      · -- founders reward era
        rename_i hlast
        injection h with h
        injection h with hv hs
        subst hs
        have hded : totalDeductions p nHeight = Int.tdiv (p.blockSubsidy nHeight) 5 := by
          simp [totalDeductions, hpos, hlast]
          intro hc
          exact absurd hc hcan
        refine ⟨rfl, by omega, rfl, rfl, rfl, ⟨_, rfl⟩, ?_⟩
        rw [hded]
        simp [voutSum]
        ring
      · -- past founders reward era
        rename_i hlast
        injection h with h
        injection h with hv hs
        subst hs
        have hded : totalDeductions p nHeight = 0 := by
          simp [totalDeductions, hpos, hlast]
          intro hc
          exact absurd hc hcan
        refine ⟨rfl, by omega, rfl, rfl, rfl, ⟨[], by simp⟩, by rw [hded]; ring⟩
  · -- nHeight ≤ 0
    rename_i hpos
    injection h with h
    injection h with hv hs
    subst hs
    have hded : totalDeductions p nHeight = 0 := by simp [totalDeductions, hpos]
    exact ⟨rfl, by omega, rfl, rfl, rfl, ⟨[], by simp⟩, by rw [hded]; ring⟩

theorem setFounders_error_spec (p : ChainParams) (nHeight nFees : Int) (s : BuilderState)
    (e : BuilderState)
    (h : setFoundersRewardAndGetMinerValue p nHeight nFees s = .error e) :
    e.freeCount = s.freeCount + 1 ∧ e.mtx = s.mtx := by
  simp only [setFoundersRewardAndGetMinerValue] at h
  split at h
  · split at h
    · split at h
      · exact absurd h (by simp)
      · injection h with h
        subst h
        exact ⟨rfl, rfl⟩
    · split at h
      · exact absurd h (by simp)
      · exact absurd h (by simp)
  · exact absurd h (by simp)

theorem computeBindingSig_ok_none (env : ProvingEnv) (s s' : BuilderState)
    (h : computeBindingSig env none s = .ok s') : s' = s := by
  simp only [computeBindingSig] at h
  split at h
  · exact absurd h (by simp)
  · split at h
    · injection h with h
      exact h.symm
    · exact absurd h (by simp)

theorem computeBindingSig_ok_some (env : ProvingEnv) (outs : List Int) (s s' : BuilderState)
    (h : computeBindingSig env (some outs) s = .ok s') :
    s' = { s with mtx := { s.mtx with orchardBundle := some outs } } := by
  simp only [computeBindingSig] at h
  split at h
  · exact absurd h (by simp)
  · split at h
    · split at h
      · injection h with h
        exact h.symm
      · exact absurd h (by simp)
    · exact absurd h (by simp)

theorem computeBindingSig_error_spec (env : ProvingEnv) (o : Option (List Int))
    (s e : BuilderState) (h : computeBindingSig env o s = .error e) :
    e.freeCount = s.freeCount + 1 := by
  simp only [computeBindingSig] at h
  split at h
  · injection h with h
    subst h
    rfl
  · split at h
    · split at h
      · split at h
        · exact absurd h (by simp)
        · injection h with h
          subst h
          rfl
      · injection h with h
        subst h
        rfl
    · split at h
      · exact absurd h (by simp)
      · injection h with h
        subst h
        rfl

theorem runOrchard_ok_spec (p : ChainParams) (nHeight nFees : Int) (env : ProvingEnv)
    (s0 s' : BuilderState) (h : runOrchardCoinbase p nHeight nFees env s0 = .ok s') :
    s'.mtx.vin = s0.mtx.vin ∧
    s'.mtx.nExpiryHeight = s0.mtx.nExpiryHeight ∧
    s'.mtx.orchardBundle
      = some [p.blockSubsidy nHeight - totalDeductions p nHeight + nFees, 0] ∧
    voutSum s'.mtx - s'.mtx.valueBalanceSapling
      = voutSum s0.mtx - s0.mtx.valueBalanceSapling + totalDeductions p nHeight := by
  simp only [runOrchardCoinbase] at h
  split at h
  · exact absurd h (by simp)
  · rename_i mr s1 hsf
    split at h
    · exact absurd h (by simp)
    · split at h
      · exact absurd h (by simp)
      · rename_i s2 hbs
        injection h with h
        subst h
        obtain ⟨_, hv, hvin, hexp, horch, _, hcons⟩ := setFounders_ok_spec _ _ _ _ _ _ hsf
        have hs2 := computeBindingSig_ok_some _ _ _ _ hbs
        subst hs2
        subst hv
        exact ⟨hvin, hexp, rfl, by simpa [voutSum] using hcons⟩

theorem runSapling_ok_spec (p : ChainParams) (nHeight nFees : Int) (env : ProvingEnv)
    (s0 s' : BuilderState) (h : runSaplingCoinbase p nHeight nFees env s0 = .ok s') :
    s'.mtx.vin = s0.mtx.vin ∧
    s'.mtx.nExpiryHeight = s0.mtx.nExpiryHeight ∧
    s'.mtx.orchardBundle = s0.mtx.orchardBundle ∧
    s'.mtx.vShieldedOutput.getLast?
      = some (p.blockSubsidy nHeight - totalDeductions p nHeight + nFees) ∧
    voutSum s'.mtx - s'.mtx.valueBalanceSapling
      = voutSum s0.mtx - s0.mtx.valueBalanceSapling + totalDeductions p nHeight
        + (p.blockSubsidy nHeight - totalDeductions p nHeight + nFees) := by
  simp only [runSaplingCoinbase] at h
  split at h
  · exact absurd h (by simp)
  · rename_i mr s1 hsf
    split at h
    · exact absurd h (by simp)
    · split at h
      · exact absurd h (by simp)
      · rename_i s4 hbs
        injection h with h
        subst h
        obtain ⟨_, hv, hvin, hexp, horch, _, hcons⟩ := setFounders_ok_spec _ _ _ _ _ _ hsf
        have hs4 := computeBindingSig_ok_none _ _ _ hbs
        subst hs4
        subst hv
        refine ⟨hvin, hexp, horch, by simp, ?_⟩
        simp only [voutSum] at hcons ⊢
        linarith

theorem runTransparent_ok_spec (p : ChainParams) (nHeight nFees : Int) (env : ProvingEnv)
    (script : List Nat) (s0 s' : BuilderState) (hv0 : s0.mtx.vout = [])
    (h : runTransparentCoinbase p nHeight nFees env script s0 = .ok s') :
    s'.mtx.vin = s0.mtx.vin ∧
    s'.mtx.nExpiryHeight = s0.mtx.nExpiryHeight ∧
    s'.mtx.orchardBundle = s0.mtx.orchardBundle ∧
    s'.mtx.vout.head?
      = some (p.blockSubsidy nHeight - totalDeductions p nHeight + nFees, script) ∧
    voutSum s'.mtx - s'.mtx.valueBalanceSapling
      = (p.blockSubsidy nHeight - totalDeductions p nHeight + nFees)
        + totalDeductions p nHeight - s0.mtx.valueBalanceSapling := by
  simp only [runTransparentCoinbase, hv0, resizeVoutToOne] at h
  split at h
  · exact absurd h (by simp)
  · rename_i value s1 hsf
    obtain ⟨_, hv, hvin, hexp, horch, ⟨ext, hvout⟩, hcons⟩ := setFounders_ok_spec _ _ _ _ _ _ hsf
    have hvout1 : s1.mtx.vout = (-1, ([] : List Nat)) :: ext := by simpa using hvout
    rw [hvout1] at h
    split at h
    · split at h
      · exact absurd h (by simp)
      · rename_i s3 hbs
        injection h with h
        subst h
        have hs3 := computeBindingSig_ok_none _ _ _ hbs
        subst hs3
        subst hv
        refine ⟨by simpa using hvin, by simpa using hexp, by simpa using horch, by simp, ?_⟩
        simp only [voutSum, hvout1] at hcons
        simp only [voutSum] at hcons ⊢
        simp only [List.map_cons, List.sum_cons, List.map_nil, List.sum_nil] at hcons ⊢
        linarith
    · injection h with h
      subst h
      subst hv
      refine ⟨by simpa using hvin, by simpa using hexp, by simpa using horch, by simp, ?_⟩
      simp only [voutSum, hvout1] at hcons
      simp only [voutSum] at hcons ⊢
      simp only [List.map_cons, List.sum_cons, List.map_nil, List.sum_nil] at hcons ⊢
      linarith

theorem runOrchard_freeCount (p : ChainParams) (nHeight nFees : Int) (env : ProvingEnv)
    (s0 : BuilderState) :
    (exceptState (runOrchardCoinbase p nHeight nFees env s0)).freeCount
      = s0.freeCount + 1 := by
  simp only [runOrchardCoinbase]
  cases hsf : setFoundersRewardAndGetMinerValue p nHeight nFees s0 with
  | error e => simpa [exceptState] using (setFounders_error_spec _ _ _ _ _ hsf).1
  | ok pr =>
    obtain ⟨mr, s1⟩ := pr
    have hfc1 : s1.freeCount = s0.freeCount := (setFounders_ok_spec _ _ _ _ _ _ hsf).1
    by_cases hb : env.orchardBuildOk = true
    · simp only [hb, not_true_eq_false, Bool.false_eq_true, if_false]
      cases hbs : computeBindingSig env (some [mr, 0]) s1 with
      | error e =>
        have := computeBindingSig_error_spec _ _ _ _ hbs
        simp [exceptState, this, hfc1]
      | ok s2 =>
        have hs2 := computeBindingSig_ok_some _ _ _ _ hbs
        subst hs2
        simp [exceptState, hfc1]
    · simp only [Bool.not_eq_true] at hb
      simp [hb, exceptState, hfc1]

theorem runSapling_freeCount (p : ChainParams) (nHeight nFees : Int) (env : ProvingEnv)
    (s0 : BuilderState) :
    (exceptState (runSaplingCoinbase p nHeight nFees env s0)).freeCount
      = s0.freeCount + 1 := by
  simp only [runSaplingCoinbase]
  cases hsf : setFoundersRewardAndGetMinerValue p nHeight nFees s0 with
  | error e => simpa [exceptState] using (setFounders_error_spec _ _ _ _ _ hsf).1
  | ok pr =>
    obtain ⟨mr, s1⟩ := pr
    have hfc1 : s1.freeCount = s0.freeCount := (setFounders_ok_spec _ _ _ _ _ _ hsf).1
    by_cases hm : env.minerOutputBuildOk = true
    · simp only [hm, not_true_eq_false, Bool.false_eq_true, if_false]
      cases hbs : computeBindingSig env none
          { s1 with mtx :=
            { s1.mtx with
              valueBalanceSapling := s1.mtx.valueBalanceSapling - mr,
              vShieldedOutput := s1.mtx.vShieldedOutput ++ [mr] } } with
      | error e =>
        have := computeBindingSig_error_spec _ _ _ _ hbs
        simp only [hbs, exceptState]
        simp at this
        omega
      | ok s4 =>
        have hs4 := computeBindingSig_ok_none _ _ _ hbs
        subst hs4
        simp [hbs, exceptState, hfc1]
    · simp only [Bool.not_eq_true] at hm
      simp [hm, exceptState, hfc1]

theorem runTransparent_freeCount (p : ChainParams) (nHeight nFees : Int) (env : ProvingEnv)
    (script : List Nat) (s0 : BuilderState) :
    (exceptState (runTransparentCoinbase p nHeight nFees env script s0)).freeCount
      = s0.freeCount + 1 := by
  simp only [runTransparentCoinbase]
  cases hsf : setFoundersRewardAndGetMinerValue p nHeight nFees
      { s0 with mtx := { s0.mtx with vout := resizeVoutToOne s0.mtx.vout } } with
  | error e =>
    have := (setFounders_error_spec _ _ _ _ _ hsf).1
    simp only [exceptState]
    simp at this
    omega
  | ok pr =>
    obtain ⟨value, s1⟩ := pr
    have hfc1 : s1.freeCount = s0.freeCount := by
      have := (setFounders_ok_spec _ _ _ _ _ _ hsf).1
      simpa using this
    dsimp only
    split
    · cases hbs : computeBindingSig env none
          { s1 with mtx :=
            { s1.mtx with vout :=
              match s1.mtx.vout with
              | [] => []
              | _ :: rest => (value, script) :: rest } } with
      | error e =>
        have := computeBindingSig_error_spec _ _ _ _ hbs
        simp only [exceptState]
        simp at this
        omega
      | ok s3 =>
        have hs3 := computeBindingSig_ok_none _ _ _ hbs
        subst hs3
        simp [exceptState, hfc1]
    · simp [exceptState, hfc1]

theorem createCoinbase_ok_shape (p : ChainParams) (nFees : Int) (addr : MinerAddress)
    (nHeight : Int) (env : ProvingEnv) (mtx : CMutableTransaction)
    (h : createCoinbaseTransaction p nFees addr nHeight env = .ok mtx) :
    mtx.vin = [{ prevoutNull := true, scriptSig := scriptPushInt64 nHeight ++ [OP_0] }] ∧
    mtx.nExpiryHeight = (if p.nu5Active nHeight then nHeight else 0) := by
  simp only [createCoinbaseTransaction] at h
  split at h
  · exact absurd h (by simp)
  · rename_i s hrun
    injection h with h
    subst h
    cases addr with
    | transparent script =>
      obtain ⟨hvin, hexp, -, -, -⟩ :=
        runTransparent_ok_spec p nHeight nFees env script _ _ rfl hrun
      simp only [emptyMutableTx] at hvin hexp
      rw [hvin]
      exact ⟨rfl, by simpa using hexp⟩
    | saplingAddr a =>
      obtain ⟨hvin, hexp, -, -, -⟩ := runSapling_ok_spec p nHeight nFees env _ _ hrun
      simp only [emptyMutableTx] at hvin hexp
      rw [hvin]
      exact ⟨rfl, by simpa using hexp⟩
    | orchardAddr a =>
      obtain ⟨hvin, hexp, -, -⟩ := runOrchard_ok_spec p nHeight nFees env _ _ hrun
      simp only [emptyMutableTx] at hvin hexp
      rw [hvin]
      exact ⟨rfl, by simpa using hexp⟩

/-- C1: for every height, fee total and miner address variant, a coinbase
transaction returned by CreateCoinbaseTransaction conserves value: its
transparent output total minus the net Sapling and Orchard value balances
equals the block subsidy plus the fees, and the own output of the miner (the
transparent output at index zero, the Sapling miner note, or the Orchard
miner action respectively) carries the subsidy minus all founders-reward /
funding-stream deductions plus the fees. -/
theorem coinbase_conserves_value (p : ChainParams) (nFees : Int) (addr : MinerAddress)
    (nHeight : Int) (env : ProvingEnv) (mtx : CMutableTransaction)
    (h : createCoinbaseTransaction p nFees addr nHeight env = .ok mtx) :
    voutSum mtx - (mtx.valueBalanceSapling + orchardBundleValueBalance mtx.orchardBundle)
      = p.blockSubsidy nHeight + nFees ∧
    (∀ script, addr = .transparent script →
      mtx.vout.head?
        = some (p.blockSubsidy nHeight - totalDeductions p nHeight + nFees, script)) ∧
    (∀ a, addr = .saplingAddr a →
      mtx.vShieldedOutput.getLast?
        = some (p.blockSubsidy nHeight - totalDeductions p nHeight + nFees)) ∧
    (∀ a, addr = .orchardAddr a →
      mtx.orchardBundle
        = some [p.blockSubsidy nHeight - totalDeductions p nHeight + nFees, 0]) := by
  simp only [createCoinbaseTransaction] at h
  split at h
  · exact absurd h (by simp)
  · rename_i s hrun
    injection h with h
    subst h
    cases addr with
    | transparent script =>
      obtain ⟨hvin, hexp, horch, hhead, hcons⟩ :=
        runTransparent_ok_spec p nHeight nFees env script _ _ rfl hrun
      simp only [emptyMutableTx] at horch hcons
      refine ⟨?_, ?_, by simp, by simp⟩
      · simp only [voutSum] at hcons ⊢
        simp only [horch, orchardBundleValueBalance]
        simp at hcons
        linarith
      · intro script' hs
        injection hs with hs
        subst hs
        simpa using hhead
    | saplingAddr a =>
      obtain ⟨hvin, hexp, horch, hlast, hcons⟩ := runSapling_ok_spec p nHeight nFees env _ _ hrun
      simp only [emptyMutableTx] at horch hcons
      refine ⟨?_, by simp, ?_, by simp⟩
      · simp only [voutSum] at hcons ⊢
        simp only [horch, orchardBundleValueBalance]
        simp at hcons
        linarith
      · intro a' hs
        simpa using hlast
    | orchardAddr a =>
      obtain ⟨hvin, hexp, horch, hcons⟩ := runOrchard_ok_spec p nHeight nFees env _ _ hrun
      simp only [emptyMutableTx] at hcons
      refine ⟨?_, by simp, by simp, ?_⟩
      · simp only [voutSum] at hcons ⊢
        simp only [horch, orchardBundleValueBalance]
        simp only [List.sum_cons, List.sum_nil]
        simp at hcons
        linarith
      · intro a' hs
        simpa using horch

/-- C1 witness: a concrete all-success run of the coinbase builder at
height 2 with fees 3, a transparent miner script, subsidy 100 and one
transparent plus one Sapling funding stream of 10 each. -/
theorem coinbase_conserves_value_witness :
    createCoinbaseTransaction
      { canopyActive := fun _ => true, nu5Active := fun _ => true,
        blockSubsidy := fun _ => 100,
        fundingStreams := fun _ _ =>
          [{ recipient := .script [1], amount := 10 },
           { recipient := .sapling true, amount := 10 }],
        lastFoundersRewardHeight := fun _ => 0, foundersScript := fun _ => [9] }
      3 (.transparent [7]) 2
      { minerOutputBuildOk := true, orchardBuildOk := true, sigHashOk := true,
        orchardProveOk := true, bindingSigOk := true }
      = .ok
        { vin := [{ prevoutNull := true, scriptSig := [0x52, OP_0] }],
          vout := [(83, [7]), (10, [1])],
          vShieldedOutput := [10], valueBalanceSapling := -10,
          orchardBundle := none, nExpiryHeight := 2 } ∧
    voutSum
        { vin := [{ prevoutNull := true, scriptSig := [0x52, OP_0] }],
          vout := [(83, [7]), (10, [1])],
          vShieldedOutput := [10], valueBalanceSapling := -10,
          orchardBundle := none, nExpiryHeight := 2 }
      - ((-10) + orchardBundleValueBalance none) = 100 + 3 := by
  have := coinbase_conserves_value
    { canopyActive := fun _ => true, nu5Active := fun _ => true,
      blockSubsidy := fun _ => 100,
      fundingStreams := fun _ _ =>
        [{ recipient := .script [1], amount := 10 },
         { recipient := .sapling true, amount := 10 }],
      lastFoundersRewardHeight := fun _ => 0, foundersScript := fun _ => [9] }
    3 (.transparent [7]) 2
    { minerOutputBuildOk := true, orchardBuildOk := true, sigHashOk := true,
      orchardProveOk := true, bindingSigOk := true }
    { vin := [{ prevoutNull := true, scriptSig := [0x52, OP_0] }],
      vout := [(83, [7]), (10, [1])],
      vShieldedOutput := [10], valueBalanceSapling := -10,
      orchardBundle := none, nExpiryHeight := 2 }
    rfl
  exact ⟨rfl, this.1⟩

/-- C5: every coinbase transaction produced by CreateCoinbaseTransaction
has nExpiryHeight equal to the target height when NU5 is active there and
zero otherwise, and it has exactly one input, whose previous outpoint is
null. -/
theorem coinbase_expiry_and_null_input (p : ChainParams) (nFees : Int) (addr : MinerAddress)
    (nHeight : Int) (env : ProvingEnv) (mtx : CMutableTransaction)
    (h : createCoinbaseTransaction p nFees addr nHeight env = .ok mtx) :
    (p.nu5Active nHeight = true → mtx.nExpiryHeight = nHeight) ∧
    (p.nu5Active nHeight = false → mtx.nExpiryHeight = 0) ∧
    mtx.vin.length = 1 ∧
    (∀ i ∈ mtx.vin, i.prevoutNull = true) := by
  obtain ⟨hvin, hexp⟩ := createCoinbase_ok_shape p nFees addr nHeight env mtx h
  refine ⟨?_, ?_, by rw [hvin]; rfl, ?_⟩
  · intro hnu5
    rw [hexp, if_pos hnu5]
  · intro hnu5
    rw [hexp, hnu5]
    simp
  · intro i hi
    rw [hvin] at hi
    simp at hi
    rw [hi]

/-- C5 witness: the concrete all-success run of the builder from the C1
witness, instantiating the expiry and null-outpoint facts at height 2. -/
theorem coinbase_expiry_and_null_input_witness :
    ({ vin := [{ prevoutNull := true, scriptSig := [0x52, OP_0] }],
       vout := [(83, [7]), (10, [1])],
       vShieldedOutput := [10], valueBalanceSapling := -10,
       orchardBundle := none, nExpiryHeight := 2 } : CMutableTransaction).nExpiryHeight = 2 := by
  have := coinbase_expiry_and_null_input
    { canopyActive := fun _ => true, nu5Active := fun _ => true,
      blockSubsidy := fun _ => 100,
      fundingStreams := fun _ _ =>
        [{ recipient := .script [1], amount := 10 },
         { recipient := .sapling true, amount := 10 }],
      lastFoundersRewardHeight := fun _ => 0, foundersScript := fun _ => [9] }
    3 (.transparent [7]) 2
    { minerOutputBuildOk := true, orchardBuildOk := true, sigHashOk := true,
      orchardProveOk := true, bindingSigOk := true }
    { vin := [{ prevoutNull := true, scriptSig := [0x52, OP_0] }],
      vout := [(83, [7]), (10, [1])],
      vShieldedOutput := [10], valueBalanceSapling := -10,
      orchardBundle := none, nExpiryHeight := 2 }
    rfl
  exact this.1 rfl

/-- C7: every execution path through each of the three coinbase builder
variants, over all combinations of funding-stream build failures, miner
output or Orchard bundle build failures, signature-hash logic errors,
Orchard prove-and-sign failures, rejected binding signatures, and the
success path, frees the Sapling proving context exactly once. -/
theorem coinbase_builder_frees_context_once (p : ChainParams) (nHeight nFees : Int)
    (env : ProvingEnv) (addr : MinerAddress) (s0 : BuilderState) :
    (exceptState (runCoinbaseVariant p nHeight nFees env addr s0)).freeCount
      = s0.freeCount + 1 := by
  cases addr with
  | transparent script => exact runTransparent_freeCount p nHeight nFees env script s0
  | saplingAddr a => exact runSapling_freeCount p nHeight nFees env s0
  | orchardAddr a => exact runOrchard_freeCount p nHeight nFees env s0

/-- C6 counterexample: at height 0 with Canopy inactive, subsidy 50 and a
last founders-reward height of 100, the conditions of the claim hold (Canopy
inactive, height at most the last founders-reward height) yet
SetFoundersRewardAndGetMinerValue adds no founders output (the transaction
is returned unchanged, with an empty vout) and the miner value is the full
subsidy plus fees (57), not reduced by the nonzero fifth (10): the guard
at miner.cpp line 188 also requires the height to be positive. -/
theorem founders_reward_claim_cex :
    (ChainParams.canopyActive
      { canopyActive := fun _ => false, nu5Active := fun _ => false,
        blockSubsidy := fun _ => 50, fundingStreams := fun _ _ => [],
        lastFoundersRewardHeight := fun _ => 100, foundersScript := fun _ => [9] } 0 = false) ∧
    ((0 : Int) ≤ ChainParams.lastFoundersRewardHeight
      { canopyActive := fun _ => false, nu5Active := fun _ => false,
        blockSubsidy := fun _ => 50, fundingStreams := fun _ _ => [],
        lastFoundersRewardHeight := fun _ => 100, foundersScript := fun _ => [9] } 0) ∧
    Int.tdiv 50 5 = 10 ∧
    setFoundersRewardAndGetMinerValue
      { canopyActive := fun _ => false, nu5Active := fun _ => false,
        blockSubsidy := fun _ => 50, fundingStreams := fun _ _ => [],
        lastFoundersRewardHeight := fun _ => 100, foundersScript := fun _ => [9] }
      0 7 { mtx := emptyMutableTx, freeCount := 0 }
      = .ok (57, { mtx := emptyMutableTx, freeCount := 0 }) ∧
    emptyMutableTx.vout = [] := by
  exact ⟨rfl, by decide, by decide, rfl, rfl⟩

/-- C6 amended: when the height is positive, the Canopy-era upgrade is not
active at it, and it is at most the last founders-reward height, the
coinbase gains one transparent output worth one fifth of the block subsidy
paying the height-specific founders script, and the miner receives the
subsidy minus that fifth plus the fees. -/
theorem founders_reward_deduction (p : ChainParams) (nHeight nFees : Int) (s : BuilderState)
    (hpos : 0 < nHeight) (hcan : p.canopyActive nHeight = false)
    (hlast : nHeight ≤ p.lastFoundersRewardHeight nHeight) :
    setFoundersRewardAndGetMinerValue p nHeight nFees s
      = .ok (p.blockSubsidy nHeight - Int.tdiv (p.blockSubsidy nHeight) 5 + nFees,
        { s with mtx := { s.mtx with vout :=
          s.mtx.vout
            ++ [(Int.tdiv (p.blockSubsidy nHeight) 5, p.foundersScript nHeight)] } }) := by
  simp only [setFoundersRewardAndGetMinerValue]
  rw [if_pos hpos]
  rw [hcan]
  simp only [Bool.false_eq_true, if_false]
  rw [if_pos hlast]

/-- C6 amended witness: at height 1 with Canopy inactive, subsidy 50, last
founders-reward height 100 and fees 7, the founders output is (10, [9])
and the miner value is 47. -/
theorem founders_reward_deduction_witness :
    setFoundersRewardAndGetMinerValue
      { canopyActive := fun _ => false, nu5Active := fun _ => false,
        blockSubsidy := fun _ => 50, fundingStreams := fun _ _ => [],
        lastFoundersRewardHeight := fun _ => 100, foundersScript := fun _ => [9] }
      1 7 { mtx := emptyMutableTx, freeCount := 0 }
      = .ok (47, { mtx := { emptyMutableTx with vout := [(10, [9])] }, freeCount := 0 }) := by
  exact founders_reward_deduction
    { canopyActive := fun _ => false, nu5Active := fun _ => false,
      blockSubsidy := fun _ => 50, fundingStreams := fun _ _ => [],
      lastFoundersRewardHeight := fun _ => 100, foundersScript := fun _ => [9] }
    1 7 { mtx := emptyMutableTx, freeCount := 0 } (by decide) rfl (by decide)

/-- C9 counterexample: a transaction with a negative admin priority delta
(minus one) and all other gate conditions met is skipped by the free
transaction gate of miner.cpp lines 580-592, although under the claimed
reading (no admin deltas at all, that is both deltas zero) the gate should
not skip it: the code only requires the deltas to be nonpositive. -/
theorem free_tx_gate_claim_cex :
    freeTxGateSkips
      { maxSize := 5000, prioritySize := 0, minSize := 0, maxSigOps := 20000,
        minRelayFee := 100, defaultFee := 1000, monitoring := false }
      (selInit true 0 0 0)
      { txSize := 100, legacySigOps := 1, p2shSigOps := 0, priorityDelta := -1,
        feeDelta := 0, feeRate := 5, feePaid := 5, allowFree := true,
        haveInputs := true, contextualOk := true, viewFee := 5,
        valueBalanceSapling := 0, orchardValueBalance := 0, joinSplits := [] } = true ∧
    ¬ freeTxGateAsClaimed
      { maxSize := 5000, prioritySize := 0, minSize := 0, maxSigOps := 20000,
        minRelayFee := 100, defaultFee := 1000, monitoring := false }
      (selInit true 0 0 0)
      { txSize := 100, legacySigOps := 1, p2shSigOps := 0, priorityDelta := -1,
        feeDelta := 0, feeRate := 5, feePaid := 5, allowFree := true,
        haveInputs := true, contextualOk := true, viewFee := 5,
        valueBalanceSapling := 0, orchardValueBalance := 0, joinSplits := [] } := by
  constructor
  · decide
  · intro hc
    exact absurd hc.2.1 (by decide)

/-- C9 amended: the free-transaction gate skips a popped transaction
exactly when the fee comparator is active, the transaction has no positive
admin priority or fee delta (both are at most zero), its fee rate is below
the minimum relay fee, its fee paid is below DEFAULT_FEE, and the running
block size plus its size is at least the minimum block size; if any of
these fails the gate does not skip, and when it fires while the size and
legacy-sigop gates pass, the selection step leaves the state unchanged. -/
theorem free_tx_gate_iff (cfg : SelConfig) (s : SelState) (tx : MPTx) :
    (freeTxGateSkips cfg s tx = true ↔
      (s.sortedByFee = true ∧ tx.priorityDelta ≤ 0 ∧ tx.feeDelta ≤ 0 ∧
        tx.feeRate < cfg.minRelayFee ∧ tx.feePaid < cfg.defaultFee ∧
        cfg.minSize ≤ s.blockSize + tx.txSize)) ∧
    (s.blockSize + tx.txSize < cfg.maxSize →
      s.blockSigOps + tx.legacySigOps < cfg.maxSigOps →
      freeTxGateSkips cfg s tx = true →
      selStep cfg s tx = s) := by
  constructor
  · simp [freeTxGateSkips, ge_iff_le]
  · intro hsize hsig hgate
    simp only [selStep]
    rw [if_neg (by omega), if_neg (by omega), if_pos hgate]

/-- C9 amended witness: the gate condition evaluated at the concrete
configuration and transaction of the counterexample, where the gate fires
and the selection step returns the state unchanged. -/
theorem free_tx_gate_iff_witness :
    selStep
      { maxSize := 5000, prioritySize := 0, minSize := 0, maxSigOps := 20000,
        minRelayFee := 100, defaultFee := 1000, monitoring := false }
      (selInit true 0 0 0)
      { txSize := 100, legacySigOps := 1, p2shSigOps := 0, priorityDelta := -1,
        feeDelta := 0, feeRate := 5, feePaid := 5, allowFree := true,
        haveInputs := true, contextualOk := true, viewFee := 5,
        valueBalanceSapling := 0, orchardValueBalance := 0, joinSplits := [] }
      = selInit true 0 0 0 := by
  exact (free_tx_gate_iff
    { maxSize := 5000, prioritySize := 0, minSize := 0, maxSigOps := 20000,
      minRelayFee := 100, defaultFee := 1000, monitoring := false }
    (selInit true 0 0 0)
    { txSize := 100, legacySigOps := 1, p2shSigOps := 0, priorityDelta := -1,
      feeDelta := 0, feeRate := 5, feePaid := 5, allowFree := true,
      haveInputs := true, contextualOk := true, viewFee := 5,
      valueBalanceSapling := 0, orchardValueBalance := 0, joinSplits := [] }).2
    (by decide) (by decide) (by decide)

theorem selStep_spec (cfg : SelConfig) (s : SelState) (tx : MPTx) :
    (selStep cfg s tx = s ∨ selStep cfg s tx = { s with sortedByFee := true })
    ∨
    (∃ b : Bool,
      selStep cfg s tx =
        { blockSize := s.blockSize + tx.txSize,
          blockSigOps := s.blockSigOps + tx.legacySigOps + tx.p2shSigOps,
          blockTx := s.blockTx + 1,
          sortedByFee := b,
          fees := s.fees + tx.viewFee,
          sproutValue := if cfg.monitoring then sproutDummy s tx else s.sproutValue,
          saplingValue := if cfg.monitoring then saplingDummy s tx else s.saplingValue,
          orchardValue := if cfg.monitoring then orchardDummy s tx else s.orchardValue,
          txs := s.txs ++ [tx] } ∧
      s.blockSize + tx.txSize < cfg.maxSize ∧
      s.blockSigOps + tx.legacySigOps + tx.p2shSigOps < cfg.maxSigOps ∧
      (cfg.monitoring = true →
        0 ≤ sproutDummy s tx ∧ 0 ≤ saplingDummy s tx ∧ 0 ≤ orchardDummy s tx)) := by
  simp only [selStep]
  by_cases h1 : s.blockSize + tx.txSize ≥ cfg.maxSize
  · rw [if_pos h1]
    exact .inl (.inl rfl)
  rw [if_neg h1]
  by_cases h2 : s.blockSigOps + tx.legacySigOps ≥ cfg.maxSigOps
  · rw [if_pos h2]
    exact .inl (.inl rfl)
  rw [if_neg h2]
  by_cases h3 : freeTxGateSkips cfg s tx = true
  · rw [if_pos h3]
    exact .inl (.inl rfl)
  rw [if_neg h3]
  by_cases hsw : ¬ s.sortedByFee = true ∧
      (s.blockSize + tx.txSize ≥ cfg.prioritySize ∨ ¬ tx.allowFree = true)
  · rw [if_pos hsw]
    dsimp only
    by_cases h4 : tx.haveInputs = true
    · rw [if_neg (not_not_intro h4)]
      by_cases h5 : s.blockSigOps + tx.legacySigOps + tx.p2shSigOps ≥ cfg.maxSigOps
      · rw [if_pos h5]
        exact .inl (.inr rfl)
      rw [if_neg h5]
      by_cases h6 : tx.contextualOk = true
      · rw [if_neg (not_not_intro h6)]
        by_cases h7 : cfg.monitoring = true ∧
            (sproutDummy { s with sortedByFee := true } tx < 0 ∨
             saplingDummy { s with sortedByFee := true } tx < 0 ∨
             orchardDummy { s with sortedByFee := true } tx < 0)
        · rw [if_pos h7]
          exact .inl (.inr rfl)
        · rw [if_neg h7]
          refine .inr ⟨true, ?_, by omega, by omega, ?_⟩
          · simp [sproutDummy, saplingDummy, orchardDummy]
          · intro hm
            push_neg at h7
            obtain ⟨hd1, hd2, hd3⟩ := h7 hm
            simp only [sproutDummy, saplingDummy, orchardDummy] at hd1 hd2 hd3 ⊢
            omega
      · rw [if_pos h6]
        exact .inl (.inr rfl)
    · rw [if_pos (by simpa using h4)]
      exact .inl (.inr rfl)
  · rw [if_neg hsw]
    by_cases h4 : tx.haveInputs = true
    · rw [if_neg (not_not_intro h4)]
      by_cases h5 : s.blockSigOps + tx.legacySigOps + tx.p2shSigOps ≥ cfg.maxSigOps
      · rw [if_pos h5]
        exact .inl (.inl rfl)
      rw [if_neg h5]
      by_cases h6 : tx.contextualOk = true
      · rw [if_neg (not_not_intro h6)]
        by_cases h7 : cfg.monitoring = true ∧
            (sproutDummy s tx < 0 ∨ saplingDummy s tx < 0 ∨ orchardDummy s tx < 0)
        · rw [if_pos h7]
          exact .inl (.inl rfl)
        · rw [if_neg h7]
          refine .inr ⟨s.sortedByFee, ?_, by omega, by omega, ?_⟩
          · rfl
          · intro hm
            push_neg at h7
            obtain ⟨hd1, hd2, hd3⟩ := h7 hm
            omega
      · rw [if_pos h6]
        exact .inl (.inl rfl)
    · rw [if_pos (by simpa using h4)]
      exact .inl (.inl rfl)

theorem selStep_counters (cfg : SelConfig) (s : SelState) (tx : MPTx) :
    ((selStep cfg s tx).blockTx = s.blockTx ∧
     (selStep cfg s tx).blockSize = s.blockSize ∧
     (selStep cfg s tx).blockSigOps = s.blockSigOps ∧
     (selStep cfg s tx).sproutValue = s.sproutValue ∧
     (selStep cfg s tx).saplingValue = s.saplingValue ∧
     (selStep cfg s tx).orchardValue = s.orchardValue ∧
     (selStep cfg s tx).txs = s.txs)
    ∨
    ((selStep cfg s tx).blockTx = s.blockTx + 1 ∧
     (selStep cfg s tx).blockSize = s.blockSize + tx.txSize ∧
     s.blockSize + tx.txSize < cfg.maxSize ∧
     (selStep cfg s tx).blockSigOps = s.blockSigOps + tx.legacySigOps + tx.p2shSigOps ∧
     s.blockSigOps + tx.legacySigOps + tx.p2shSigOps < cfg.maxSigOps ∧
     (selStep cfg s tx).sproutValue
       = (if cfg.monitoring then sproutDummy s tx else s.sproutValue) ∧
     (selStep cfg s tx).saplingValue
       = (if cfg.monitoring then saplingDummy s tx else s.saplingValue) ∧
     (selStep cfg s tx).orchardValue
       = (if cfg.monitoring then orchardDummy s tx else s.orchardValue) ∧
     (cfg.monitoring = true →
       0 ≤ sproutDummy s tx ∧ 0 ≤ saplingDummy s tx ∧ 0 ≤ orchardDummy s tx) ∧
     (selStep cfg s tx).txs = s.txs ++ [tx]) := by
  rcases selStep_spec cfg s tx with (h | h) | ⟨b, h, hsz, hso, hmon⟩
  · left
    rw [h]
    exact ⟨rfl, rfl, rfl, rfl, rfl, rfl, rfl⟩
  · left
    rw [h]
    exact ⟨rfl, rfl, rfl, rfl, rfl, rfl, rfl⟩
  · right
    rw [h]
    exact ⟨rfl, rfl, hsz, rfl, hso, rfl, rfl, rfl, hmon, rfl⟩

theorem selLoop_size_invariant (cfg : SelConfig) (l : List MPTx) :
    ∀ s : SelState,
      (0 < s.blockTx → s.blockSize ≤ cfg.maxSize ∧ s.blockSigOps ≤ cfg.maxSigOps) →
      (0 < (selLoop cfg s l).blockTx →
        (selLoop cfg s l).blockSize ≤ cfg.maxSize ∧
        (selLoop cfg s l).blockSigOps ≤ cfg.maxSigOps) := by
  induction l with
  | nil => intro s hs; exact hs
  | cons t l ih =>
    intro s hs
    show 0 < (selLoop cfg (selStep cfg s t) l).blockTx → _
    refine ih (selStep cfg s t) ?_
    rcases selStep_counters cfg s t with
      ⟨htx, hsz, hso, -, -, -, -⟩ | ⟨htx, hsz, hszlt, hso, hsolt, -, -, -, -, -⟩
    · intro hpos
      rw [htx] at hpos
      rw [hsz, hso]
      exact hs hpos
    · intro _
      rw [hsz, hso]
      omega

theorem selLoop_pool_invariant (cfg : SelConfig) (hmon : cfg.monitoring = true)
    (l : List MPTx) :
    ∀ s : SelState, 0 ≤ s.sproutValue → 0 ≤ s.saplingValue → 0 ≤ s.orchardValue →
      0 ≤ (selLoop cfg s l).sproutValue ∧
      0 ≤ (selLoop cfg s l).saplingValue ∧
      0 ≤ (selLoop cfg s l).orchardValue := by
  induction l with
  | nil => intro s h1 h2 h3; exact ⟨h1, h2, h3⟩
  | cons t l ih =>
    intro s h1 h2 h3
    show 0 ≤ (selLoop cfg (selStep cfg s t) l).sproutValue ∧ _ ∧ _
    rcases selStep_counters cfg s t with
      ⟨-, -, -, hsp, hsa, hor, -⟩ | ⟨-, -, -, -, -, hsp, hsa, hor, hdum, -⟩
    · exact ih _ (hsp ▸ h1) (hsa ▸ h2) (hor ▸ h3)
    · obtain ⟨hd1, hd2, hd3⟩ := hdum hmon
      refine ih _ ?_ ?_ ?_
      · rw [hsp, if_pos hmon]; exact hd1
      · rw [hsa, if_pos hmon]; exact hd2
      · rw [hor, if_pos hmon]; exact hd3

/-- C2: the selection loop of CreateNewBlock starts its counters at block
size 1000 and sigops 100; a popped transaction is skipped (the template
and counter are unchanged) whenever the running size plus its size
reaches the maximum block size, or the running sigops plus its legacy
sigops reach MAX_BLOCK_SIGOPS, or the running sigops plus its legacy plus
P2SH sigops reach MAX_BLOCK_SIGOPS; consequently after any sequence of
pops in which some transaction was accepted, the counted total size is at
most the maximum size and the total sigops at most MAX_BLOCK_SIGOPS. -/
theorem selection_size_sigops_bounded (cfg : SelConfig) :
    (∀ b : Bool, ∀ sp sa orc : Int,
      (selInit b sp sa orc).blockSize = 1000 ∧ (selInit b sp sa orc).blockSigOps = 100) ∧
    (∀ (s : SelState) (tx : MPTx),
      (cfg.maxSize ≤ s.blockSize + tx.txSize ∨
       cfg.maxSigOps ≤ s.blockSigOps + tx.legacySigOps ∨
       cfg.maxSigOps ≤ s.blockSigOps + tx.legacySigOps + tx.p2shSigOps) →
      (selStep cfg s tx).blockTx = s.blockTx ∧ (selStep cfg s tx).txs = s.txs) ∧
    (∀ (b : Bool) (sp sa orc : Int) (l : List MPTx),
      0 < (selLoop cfg (selInit b sp sa orc) l).blockTx →
      (selLoop cfg (selInit b sp sa orc) l).blockSize ≤ cfg.maxSize ∧
      (selLoop cfg (selInit b sp sa orc) l).blockSigOps ≤ cfg.maxSigOps) := by
  refine ⟨fun b sp sa orc => ⟨rfl, rfl⟩, ?_, ?_⟩
  · intro s tx hgate
    rcases selStep_counters cfg s tx with
      ⟨htx, -, -, -, -, -, hl⟩ | ⟨-, -, hszlt, -, hsolt, -, -, -, -, -⟩
    · exact ⟨htx, hl⟩
    · exact absurd hgate (by push_neg; omega)
  · intro b sp sa orc l
    exact selLoop_size_invariant cfg l (selInit b sp sa orc) (by intro h; simp [selInit] at h)

/-- C2 witness: a concrete run accepting one transaction of size 100 with
one legacy sigop, whose final counters 1100 and 101 satisfy the bounds. -/
theorem selection_size_sigops_bounded_witness :
    (selLoop
      { maxSize := 5000, prioritySize := 0, minSize := 0, maxSigOps := 20000,
        minRelayFee := 0, defaultFee := 0, monitoring := false }
      (selInit true 0 0 0)
      [{ txSize := 100, legacySigOps := 1, p2shSigOps := 0, priorityDelta := 0,
         feeDelta := 0, feeRate := 5, feePaid := 5, allowFree := true,
         haveInputs := true, contextualOk := true, viewFee := 5,
         valueBalanceSapling := 0, orchardValueBalance := 0, joinSplits := [] }]).blockSize
      ≤ 5000 ∧
    (selLoop
      { maxSize := 5000, prioritySize := 0, minSize := 0, maxSigOps := 20000,
        minRelayFee := 0, defaultFee := 0, monitoring := false }
      (selInit true 0 0 0)
      [{ txSize := 100, legacySigOps := 1, p2shSigOps := 0, priorityDelta := 0,
         feeDelta := 0, feeRate := 5, feePaid := 5, allowFree := true,
         haveInputs := true, contextualOk := true, viewFee := 5,
         valueBalanceSapling := 0, orchardValueBalance := 0, joinSplits := [] }]).blockSigOps
      ≤ 20000 := by
  exact (selection_size_sigops_bounded
    { maxSize := 5000, prioritySize := 0, minSize := 0, maxSigOps := 20000,
      minRelayFee := 0, defaultFee := 0, monitoring := false }).2.2
    true 0 0 0
    [{ txSize := 100, legacySigOps := 1, p2shSigOps := 0, priorityDelta := 0,
       feeDelta := 0, feeRate := 5, feePaid := 5, allowFree := true,
       haveInputs := true, contextualOk := true, viewFee := 5,
       valueBalanceSapling := 0, orchardValueBalance := 0, joinSplits := [] }]
    (by decide)

/-- C3: with ZIP209 monitoring on (ZIP209 enabled and all three tip pool
totals initialized), a popped transaction whose hypothetical post-addition
Sprout, Sapling or Orchard balance would be negative is skipped; any
skipped transaction leaves all three running balances unchanged; an
accepted transaction updates them to the hypothetical balances (Sprout
plus the joinsplit vpub_old minus vpub_new totals, Sapling minus the
Sapling value balance, Orchard minus the Orchard value balance); and from
nonnegative starting balances every prefix of the selection keeps all
three balances nonnegative. -/
theorem turnstile_pool_invariant (cfg : SelConfig) (hmon : cfg.monitoring = true) :
    (∀ (s : SelState) (tx : MPTx),
      (sproutDummy s tx < 0 ∨ saplingDummy s tx < 0 ∨ orchardDummy s tx < 0) →
      (selStep cfg s tx).blockTx = s.blockTx ∧
      (selStep cfg s tx).sproutValue = s.sproutValue ∧
      (selStep cfg s tx).saplingValue = s.saplingValue ∧
      (selStep cfg s tx).orchardValue = s.orchardValue) ∧
    (∀ (s : SelState) (tx : MPTx),
      (selStep cfg s tx).blockTx = s.blockTx →
      (selStep cfg s tx).sproutValue = s.sproutValue ∧
      (selStep cfg s tx).saplingValue = s.saplingValue ∧
      (selStep cfg s tx).orchardValue = s.orchardValue) ∧
    (∀ (s : SelState) (tx : MPTx),
      (selStep cfg s tx).blockTx = s.blockTx + 1 →
      (selStep cfg s tx).sproutValue = sproutDummy s tx ∧
      (selStep cfg s tx).saplingValue = saplingDummy s tx ∧
      (selStep cfg s tx).orchardValue = orchardDummy s tx) ∧
    (∀ (s : SelState) (l : List MPTx),
      0 ≤ s.sproutValue → 0 ≤ s.saplingValue → 0 ≤ s.orchardValue →
      0 ≤ (selLoop cfg s l).sproutValue ∧
      0 ≤ (selLoop cfg s l).saplingValue ∧
      0 ≤ (selLoop cfg s l).orchardValue) := by
  refine ⟨?_, ?_, ?_, fun s l => selLoop_pool_invariant cfg hmon l s⟩
  · intro s tx hneg
    rcases selStep_counters cfg s tx with
      ⟨htx, -, -, hsp, hsa, hor, -⟩ | ⟨-, -, -, -, -, -, -, -, hdum, -⟩
    · exact ⟨htx, hsp, hsa, hor⟩
    · obtain ⟨hd1, hd2, hd3⟩ := hdum hmon
      rcases hneg with h | h | h
      · exact absurd hd1 (not_le.mpr h)
      · exact absurd hd2 (not_le.mpr h)
      · exact absurd hd3 (not_le.mpr h)
  · intro s tx htx
    rcases selStep_counters cfg s tx with
      ⟨-, -, -, hsp, hsa, hor, -⟩ | ⟨htx', -, -, -, -, -, -, -, -, -⟩
    · exact ⟨hsp, hsa, hor⟩
    · rw [htx'] at htx
      omega
  · intro s tx htx
    rcases selStep_counters cfg s tx with
      ⟨htx', -, -, -, -, -, -⟩ | ⟨-, -, -, -, -, hsp, hsa, hor, -, -⟩
    · rw [htx'] at htx
      omega
    · rw [hsp, hsa, hor, if_pos hmon, if_pos hmon, if_pos hmon]
      exact ⟨rfl, rfl, rfl⟩

/-- C3 witness: a monitored run starting from pool balances (5, 5, 5)
accepting one transaction with Sapling value balance 2 and one joinsplit
moving one coin out of Sprout; all final balances stay nonnegative. -/
theorem turnstile_pool_invariant_witness :
    0 ≤ (selLoop
      { maxSize := 5000, prioritySize := 0, minSize := 0, maxSigOps := 20000,
        minRelayFee := 0, defaultFee := 0, monitoring := true }
      (selInit true 5 5 5)
      [{ txSize := 100, legacySigOps := 1, p2shSigOps := 0, priorityDelta := 0,
         feeDelta := 0, feeRate := 5, feePaid := 5, allowFree := true,
         haveInputs := true, contextualOk := true, viewFee := 5,
         valueBalanceSapling := 2, orchardValueBalance := 0,
         joinSplits := [(0, 1)] }]).sproutValue := by
  exact ((turnstile_pool_invariant
    { maxSize := 5000, prioritySize := 0, minSize := 0, maxSigOps := 20000,
      minRelayFee := 0, defaultFee := 0, monitoring := true } rfl).2.2.2
    (selInit true 5 5 5)
    [{ txSize := 100, legacySigOps := 1, p2shSigOps := 0, priorityDelta := 0,
       feeDelta := 0, feeRate := 5, feePaid := 5, allowFree := true,
       haveInputs := true, contextualOk := true, viewFee := 5,
       valueBalanceSapling := 2, orchardValueBalance := 0,
       joinSplits := [(0, 1)] }]
    (by decide) (by decide) (by decide)).1

/-- C4: CreateNewBlock chooses the header commitments by the first
matching of four cases: under NU5 the block-commitments hash is derived
from the chain history root (at the branch id of the previous epoch) and the
auth-data Merkle root of the template; exactly at the Heartwood activation
height it is zero; under Heartwood (but not NU5) it equals the chain
history root; otherwise it is the root of the Sapling commitment tree
after appending every output commitment of the transactions of the template. -/
theorem hashBlockCommitments_cases (derive : Nat → Nat → Nat) (treeRoot : List Nat → Nat)
    (nu5 hwAct hwActive : Bool) (historyRoot authDataRoot : Nat)
    (initialTree : List Nat) (txCmus : List (List Nat)) :
    (nu5 = true →
      computeBlockCommitments derive treeRoot nu5 hwAct hwActive historyRoot authDataRoot
          initialTree txCmus
        = (historyRoot, authDataRoot, derive historyRoot authDataRoot)) ∧
    (nu5 = false → hwAct = true →
      computeBlockCommitments derive treeRoot nu5 hwAct hwActive historyRoot authDataRoot
          initialTree txCmus
        = (0, 0, 0)) ∧
    (nu5 = false → hwAct = false → hwActive = true →
      computeBlockCommitments derive treeRoot nu5 hwAct hwActive historyRoot authDataRoot
          initialTree txCmus
        = (historyRoot, 0, historyRoot)) ∧
    (nu5 = false → hwAct = false → hwActive = false →
      computeBlockCommitments derive treeRoot nu5 hwAct hwActive historyRoot authDataRoot
          initialTree txCmus
        = (0, 0, treeRoot (initialTree ++ txCmus.flatten))) := by
  refine ⟨?_, ?_, ?_, ?_⟩
  · intro h5
    simp [computeBlockCommitments, h5]
  · intro h5 hh
    simp [computeBlockCommitments, h5, hh]
  · intro h5 hh ha
    simp [computeBlockCommitments, h5, hh, ha]
  · intro h5 hh ha
    simp [computeBlockCommitments, saplingTreeAfterAppends, h5, hh, ha]

/-- C4 witness: the four branches evaluated at concrete roots (history 3,
auth-data 4, a length-counting tree root and a pairing derivation). -/
theorem hashBlockCommitments_cases_witness :
    computeBlockCommitments (fun a b => 1000 * a + b) (fun l => l.length)
        true false false 3 4 [5] [[6]]
      = (3, 4, 3004) ∧
    computeBlockCommitments (fun a b => 1000 * a + b) (fun l => l.length)
        false true false 3 4 [5] [[6]]
      = (0, 0, 0) ∧
    computeBlockCommitments (fun a b => 1000 * a + b) (fun l => l.length)
        false false true 3 4 [5] [[6]]
      = (3, 0, 3) ∧
    computeBlockCommitments (fun a b => 1000 * a + b) (fun l => l.length)
        false false false 3 4 [5] [[6]]
      = (0, 0, 2) := by
  refine ⟨?_, ?_, ?_, ?_⟩
  · exact (hashBlockCommitments_cases (fun a b => 1000 * a + b) (fun l => l.length)
      true false false 3 4 [5] [[6]]).1 rfl
  · exact (hashBlockCommitments_cases (fun a b => 1000 * a + b) (fun l => l.length)
      false true false 3 4 [5] [[6]]).2.1 rfl rfl
  · exact (hashBlockCommitments_cases (fun a b => 1000 * a + b) (fun l => l.length)
      false false true 3 4 [5] [[6]]).2.2.1 rfl rfl rfl
  · exact (hashBlockCommitments_cases (fun a b => 1000 * a + b) (fun l => l.length)
      false false false 3 4 [5] [[6]]).2.2.2 rfl rfl rfl

/-! ## Script encoding length bounds -/

theorem scriptNumBytesOfNat_len_le : ∀ (k n : Nat), n < 256 ^ k →
    (scriptNumBytesOfNat n).length ≤ k := by
  intro k
  induction k with
  | zero =>
    intro n hn
    interval_cases n
    rw [scriptNumBytesOfNat]
    simp
  | succ k ih =>
    intro n hn
    by_cases h0 : n = 0
    · subst h0
      rw [scriptNumBytesOfNat]
      simp
    · rw [scriptNumBytesOfNat, if_neg h0]
      simp only [List.length_cons]
      have hdiv : n / 256 < 256 ^ k := by
        rw [Nat.div_lt_iff_lt_mul (by omega)]
        calc n < 256 ^ (k + 1) := hn
        _ = 256 ^ k * 256 := by rw [pow_succ]
      have := ih (n / 256) hdiv
      omega

theorem serializeScriptNum_len_le (n : Int) (k : Nat) (h : n.natAbs < 256 ^ k) :
    (serializeScriptNum n).length ≤ k + 1 := by
  have habs := scriptNumBytesOfNat_len_le k n.natAbs h
  simp only [serializeScriptNum]
  split
  · simp
  · cases hl : (scriptNumBytesOfNat n.natAbs).getLast? with
    | none => simp
    | some msb =>
      dsimp only
      split
      · simp only [List.length_append, List.length_singleton]
        omega
      · split
        · simp only [List.length_append, List.length_singleton, List.length_dropLast]
          omega
        · omega

theorem pushData_len_le (bs : List Nat) : (pushData bs).length ≤ bs.length + 5 := by
  rw [pushData]
  split
  · simp
  · split
    · simp
    · split
      · simp
      · simp

theorem scriptPushInt64_len_le (n : Int) (k : Nat) (h : n.natAbs < 256 ^ k) :
    (scriptPushInt64 n).length ≤ k + 6 := by
  rw [scriptPushInt64]
  split
  · simp
  · split
    · simp [OP_0]
    · have h1 := serializeScriptNum_len_le n k h
      have h2 := pushData_len_le (serializeScriptNum n)
      omega

/-- C8: every coinbase transaction produced by CreateCoinbaseTransaction
has the scriptSig of its single input set to a push of the height followed by
OP_0; the scriptSig rewritten by IncrementExtraNonce is the height push,
then a CScriptNum data push of the extra nonce, then COINBASE_FLAGS, and
for every height and extra-nonce value that fits in 32 bits it is at most
100 bytes long, so the assertion in IncrementExtraNonce never fails. -/
theorem coinbase_scriptSig_bounded :
    (∀ (p : ChainParams) (nFees : Int) (addr : MinerAddress) (nHeight : Int)
       (env : ProvingEnv) (mtx : CMutableTransaction),
      createCoinbaseTransaction p nFees addr nHeight env = .ok mtx →
      mtx.vin.map (fun i => i.scriptSig) = [scriptPushInt64 nHeight ++ [OP_0]]) ∧
    (∀ h e : Nat, h < 2 ^ 32 → e < 2 ^ 32 →
      (incrementExtraNonceScriptSig (h : Int) (e : Int)).length ≤ 100) := by
  constructor
  · intro p nFees addr nHeight env mtx hok
    obtain ⟨hvin, -⟩ := createCoinbase_ok_shape p nFees addr nHeight env mtx hok
    rw [hvin]
    rfl
  · intro h e hh he
    have hpow : (2 : Nat) ^ 32 = 256 ^ 4 := by norm_num
    have hh4 : ((h : Int)).natAbs < 256 ^ 4 := by
      rw [Int.natAbs_ofNat]
      omega
    have he4 : ((e : Int)).natAbs < 256 ^ 4 := by
      rw [Int.natAbs_ofNat]
      omega
    have h1 := scriptPushInt64_len_le (h : Int) 4 hh4
    have h2 := serializeScriptNum_len_le (e : Int) 4 he4
    have h3 := pushData_len_le (serializeScriptNum (e : Int))
    simp only [incrementExtraNonceScriptSig, coinbaseFlags, List.append_nil,
      List.length_append]
    omega

/-- C8 witness: the shape fact at the concrete all-success builder run of
the C1 witness, and the length bound at height 1000000 with extra nonce
7. -/
theorem coinbase_scriptSig_bounded_witness :
    ([{ prevoutNull := true, scriptSig := [0x52, OP_0] }] : List CTxIn).map
        (fun i => i.scriptSig) = [scriptPushInt64 2 ++ [OP_0]] ∧
    (incrementExtraNonceScriptSig ((1000000 : Nat) : Int) ((7 : Nat) : Int)).length ≤ 100 := by
  constructor
  · exact coinbase_scriptSig_bounded.1
      { canopyActive := fun _ => true, nu5Active := fun _ => true,
        blockSubsidy := fun _ => 100,
        fundingStreams := fun _ _ =>
          [{ recipient := .script [1], amount := 10 },
           { recipient := .sapling true, amount := 10 }],
        lastFoundersRewardHeight := fun _ => 0, foundersScript := fun _ => [9] }
      3 (.transparent [7]) 2
      { minerOutputBuildOk := true, orchardBuildOk := true, sigHashOk := true,
        orchardProveOk := true, bindingSigOk := true }
      { vin := [{ prevoutNull := true, scriptSig := [0x52, OP_0] }],
        vout := [(83, [7]), (10, [1])],
        vShieldedOutput := [10], valueBalanceSapling := -10,
        orchardBundle := none, nExpiryHeight := 2 }
      rfl
  · exact coinbase_scriptSig_bounded.2 1000000 7 (by norm_num) (by norm_num)

/-- C10: ExtractMinerAddress is a total case analysis on decoded payment
addresses: a transparent key id yields a P2PKH reserve script, a Sapling
address yields itself, a Unified Address yields a miner address exactly
when its preferred recipient at the given height is an Orchard, Sapling or
key-id receiver, and a P2SH script id, a Sprout address, or a Unified
Address with any other (or no) preferred recipient yields none. -/
theorem extractMinerAddress_case_analysis (height : Int) :
    (∀ k, extractMinerAddress height (.keyID k) = some (.transparent (p2pkhScript k))) ∧
    (∀ sid, extractMinerAddress height (.scriptID sid) = none) ∧
    (∀ a, extractMinerAddress height (.sprout a) = none) ∧
    (∀ a, extractMinerAddress height (.sapling a) = some (.saplingAddr a)) ∧
    (∀ pref a, pref height = some (.orchard a) →
      extractMinerAddress height (.unified pref) = some (.orchardAddr a)) ∧
    (∀ pref a, pref height = some (.sapling a) →
      extractMinerAddress height (.unified pref) = some (.saplingAddr a)) ∧
    (∀ pref k, pref height = some (.keyID k) →
      extractMinerAddress height (.unified pref) = some (.transparent (p2pkhScript k))) ∧
    (∀ pref, pref height = some .otherReceiver →
      extractMinerAddress height (.unified pref) = none) ∧
    (∀ pref, pref height = none →
      extractMinerAddress height (.unified pref) = none) := by
  refine ⟨fun k => rfl, fun sid => rfl, fun a => rfl, fun a => rfl,
    ?_, ?_, ?_, ?_, ?_⟩
  · intro pref a hp
    simp [extractMinerAddress, hp]
  · intro pref a hp
    simp [extractMinerAddress, hp]
  · intro pref k hp
    simp [extractMinerAddress, hp]
  · intro pref hp
    simp [extractMinerAddress, hp]
  · intro pref hp
    simp [extractMinerAddress, hp]

/-- C10 witness: the Unified Address cases evaluated at concrete preferred
recipients (an Orchard receiver and an unsupported receiver) at height
7. -/
theorem extractMinerAddress_case_analysis_witness :
    extractMinerAddress 7 (.unified (fun _ => some (.orchard 3)))
      = some (.orchardAddr 3) ∧
    extractMinerAddress 7 (.unified (fun _ => some .otherReceiver)) = none := by
  constructor
  · exact (extractMinerAddress_case_analysis 7).2.2.2.2.1 (fun _ => some (.orchard 3)) 3 rfl
  · exact (extractMinerAddress_case_analysis 7).2.2.2.2.2.2.2.1 (fun _ => some .otherReceiver) rfl

end ZcashMiner
